import Mathlib

/-!
Shallow embedding of the vending-machine State-pattern example
(`VendingMachineContext` and its three `State` variants).  Machine-integer
values (`number` in the source) are modelled as `Int`; the mutable context
object is threaded explicitly, and a method that may throw returns the
post-mutation context together with an optional error, so that a throw
occurring before any mutation is visible as an unchanged context.
-/

namespace VendingMachine

structure Coin where
  name : String
  value : Int
  deriving DecidableEq, Repr

structure Product where
  name : String
  value : Int
  deriving DecidableEq, Repr

structure InventoryItem where
  product : Product
  items : Int
  deriving DecidableEq, Repr

structure Inventory where
  items : List InventoryItem
  deriving DecidableEq, Repr

/-- The three concrete `State` subclasses, as a closed tag. -/
inductive StateName where
  | InitialReadyState
  | TransactionStarted
  | OutOfStock
  deriving DecidableEq, Repr

/-- `state.constructor.name`, as used by the transition log line. -/
def StateName.className : StateName → String
  | .InitialReadyState => "InitialReadyState"
  | .TransactionStarted => "TransactionStarted"
  | .OutOfStock => "OutOfStock"

/-- The four distinct throw sites of the example (the spec's error
taxonomy), plus the TypeError TypeScript would raise if `find` returned
`undefined` inside `dispenseProduct` (dead code: `hasStockOf` is checked
first). -/
inductive VMError where
  | noCredit
  | insufficientCredit
  | outOfStock
  | machineOutOfStock
  | typeError
  deriving DecidableEq, Repr

/-- The `VendingMachineContext` object: current state, credit, inventory,
plus the list of transition log lines emitted by `transitionTo` (the
observable transition events). -/
structure VendingMachineContext where
  state : StateName
  credit : Int
  inventory : Inventory
  trace : List String
  deriving DecidableEq, Repr

def addCredit (m : VendingMachineContext) (credit : Int) : VendingMachineContext :=
  { m with credit := m.credit + credit }

def resetCredit (m : VendingMachineContext) : VendingMachineContext :=
  { m with credit := 0 }

def hasStockOf (m : VendingMachineContext) (product : Product) : Bool :=
  m.inventory.items.any (fun i => i.product.name == product.name && decide (0 < i.items))

def isOutOfStock (m : VendingMachineContext) : Bool :=
  ! m.inventory.items.any (fun i => decide (0 < i.items))

/-- The log line `transitionTo` prints: it interpolates only the NEW
state's class name. -/
def transitionEvent (state : StateName) : String :=
  "Context: Transition to " ++ state.className ++ "."

def transitionTo (m : VendingMachineContext) (state : StateName) : VendingMachineContext :=
  { m with state := state, trace := m.trace ++ [transitionEvent state] }

def dispenseProduct (m : VendingMachineContext) (product : Product) :
    VendingMachineContext × Option VMError :=
  if product.value > m.credit then
    (m, some .insufficientCredit)
  else if ! hasStockOf m product then
    (m, some .outOfStock)
  else
    match m.inventory.items.find? (fun i => i.product.name == product.name) with
    | some inventoryItem =>
        let newInventoryItem : InventoryItem := { product := product, items := inventoryItem.items - 1 }
        let restOfInventory := m.inventory.items.filter (fun i => ! (i.product.name == product.name))
        let m' := { m with inventory := ⟨restOfInventory ++ [newInventoryItem]⟩ }
        (resetCredit m', none)
    | none => (m, some .typeError)

/-- `insertCoin` delegates to the current state: `InitialReadyState` adds
credit and transitions to `TransactionStarted`; `TransactionStarted` adds
credit; `OutOfStock` throws. -/
def insertCoin (m : VendingMachineContext) (coin : Coin) :
    VendingMachineContext × Option VMError :=
  match m.state with
  | .InitialReadyState =>
      let m' := addCredit m coin.value
      (transitionTo m' .TransactionStarted, none)
  | .TransactionStarted => (addCredit m coin.value, none)
  | .OutOfStock => (m, some .machineOutOfStock)

/-- `selectProduct` delegates to the current state: `InitialReadyState`
throws `NoCreditError`; `TransactionStarted` dispenses and then transitions
depending on `isOutOfStock`; `OutOfStock` throws. -/
def selectProduct (m : VendingMachineContext) (product : Product) :
    VendingMachineContext × Option VMError :=
  match m.state with
  | .InitialReadyState => (m, some .noCredit)
  | .TransactionStarted =>
      match dispenseProduct m product with
      | (m', none) =>
          if isOutOfStock m' then (transitionTo m' .OutOfStock, none)
          else (transitionTo m' .InitialReadyState, none)
      | (m', some e) => (m', some e)
  | .OutOfStock => (m, some .machineOutOfStock)

/-- Constants of the example. -/
def SODA : Product := { name := "Soda", value := 15 }

def NUTS : Product := { name := "Nuts", value := 25 }

def INITIAL_INVENTORY : Inventory :=
  { items := [{ product := SODA, items := 2 }, { product := NUTS, items := 0 }] }

def NICKEL : Coin := { name := "nickel", value := 5 }

def DIME : Coin := { name := "dime", value := 10 }

/-- `new VendingMachineContext(new InitialReadyState())`: the constructor
calls `transitionTo` on the initial state; credit starts at 0 and the
inventory at `INITIAL_INVENTORY`. -/
def initialContext : VendingMachineContext :=
  transitionTo
    { state := .InitialReadyState, credit := 0, inventory := INITIAL_INVENTORY, trace := [] }
    .InitialReadyState

/-- An external call to the machine. -/
inductive Op where
  | insert (coin : Coin)
  | select (product : Product)
  deriving DecidableEq, Repr

/-- The context reached after one external call (a thrown error leaves the
caller with the context as the call left it). -/
def step (m : VendingMachineContext) : Op → VendingMachineContext
  | .insert c => (insertCoin m c).1
  | .select p => (selectProduct m p).1

def run (m : VendingMachineContext) : List Op → VendingMachineContext
  | [] => m
  | op :: ops => run (step m op) ops

def Op.coinPos : Op → Prop
  | .insert c => 0 < c.value
  | .select _ => True

instance : DecidablePred Op.coinPos := fun op =>
  match op with
  | .insert c => inferInstanceAs (Decidable (0 < c.value))
  | .select _ => inferInstanceAs (Decidable True)

/-- Every coin inserted in the call sequence has positive value. -/
def PosCoins (ops : List Op) : Prop := ∀ op ∈ ops, op.coinPos

instance : DecidablePred PosCoins := fun ops => List.decidableBAll _ ops

/-- Total stock, by product name (the spec's per-product inventory count;
when names are unique it is the unique entry's count, else the sum). -/
def countOf (n : String) : List InventoryItem → Int
  | [] => 0
  | i :: rest => (if i.product.name == n then i.items else 0) + countOf n rest

/-- At most one inventory entry per product name (the spec's `Inventory`
data-model invariant). -/
def NodupNames (inv : Inventory) : Prop :=
  (inv.items.map fun i => i.product.name).Nodup

instance : DecidablePred NodupNames := fun inv => by
  unfold NodupNames
  infer_instance

/-- The spec's data-model invariant on inventories: non-negative counts and
at most one entry per product name. -/
def GoodInv (inv : Inventory) : Prop :=
  (∀ i ∈ inv.items, 0 ≤ i.items) ∧ NodupNames inv

/-- The implicit credit/state coupling: credit is non-negative and positive
exactly in the `TransactionStarted` state. -/
def CreditStateInv (m : VendingMachineContext) : Prop :=
  0 ≤ m.credit ∧ (0 < m.credit ↔ m.state = .TransactionStarted)

/-- Run a call sequence while tracking the sum of the values of all coins
inserted since the last successful dispense (the quantity bounded by the
spec's credit invariant). -/
def runSum (m : VendingMachineContext) (s : Int) : List Op → VendingMachineContext × Int
  | [] => (m, s)
  | Op.insert c :: ops => runSum (insertCoin m c).1 (s + c.value) ops
  | Op.select p :: ops =>
      runSum (selectProduct m p).1 (if (selectProduct m p).2 = none then 0 else s) ops

instance : DecidablePred GoodInv := fun inv => by
  unfold GoodInv
  infer_instance

/-- A context mid-transaction with credit exactly equal to the price of
`SODA` (reached from `initialContext` by a dime and a nickel, modulo the
trace). -/
def creditedContext : VendingMachineContext :=
  { state := .TransactionStarted, credit := 15, inventory := INITIAL_INVENTORY, trace := [] }

/-- A context whose stock is exhausted and whose state is `OutOfStock`. -/
def stockOutContext : VendingMachineContext :=
  { state := .OutOfStock, credit := 0,
    inventory := { items := [{ product := SODA, items := 0 }, { product := NUTS, items := 0 }] },
    trace := [] }

/-- `sub` occurs as a contiguous substring. -/
def hasSubList (sub : List Char) : List Char → Bool
  | [] => sub.isEmpty
  | c :: rest => sub.isPrefixOf (c :: rest) || hasSubList sub rest

/-- A transition event names a state when the state's class name occurs in
the event text. -/
def eventNames (event : String) (s : StateName) : Bool :=
  hasSubList s.className.toList event.toList

/-! ### Helper lemmas about stock predicates and counts -/

theorem hasStockOf_iff (m : VendingMachineContext) (p : Product) :
    hasStockOf m p = true ↔ ∃ i ∈ m.inventory.items, i.product.name = p.name ∧ 0 < i.items := by
  simp [hasStockOf, List.any_eq_true]

theorem isOutOfStock_iff (m : VendingMachineContext) :
    isOutOfStock m = true ↔ ∀ i ∈ m.inventory.items, i.items ≤ 0 := by
  simp [isOutOfStock, List.any_eq_true, not_lt]

theorem countOf_append (n : String) (l₁ l₂ : List InventoryItem) :
    countOf n (l₁ ++ l₂) = countOf n l₁ + countOf n l₂ := by
  induction l₁ with
  | nil => simp [countOf]
  | cons i t ih => simp [countOf, ih]; ring

theorem countOf_eq_zero (n : String) (l : List InventoryItem)
    (h : ∀ i ∈ l, i.product.name ≠ n) : countOf n l = 0 := by
  induction l with
  | nil => rfl
  | cons i t ih =>
      have h1 : i.product.name ≠ n := h i (by simp)
      have h2 : ∀ j ∈ t, j.product.name ≠ n := fun j hj => h j (by simp [hj])
      simp [countOf, h1, ih h2]

theorem countOf_filter_self (n : String) (l : List InventoryItem) :
    countOf n (l.filter fun i => ! (i.product.name == n)) = 0 := by
  apply countOf_eq_zero
  intro i hi
  simpa using List.of_mem_filter hi

theorem countOf_filter_other (n n' : String) (hne : n' ≠ n) (l : List InventoryItem) :
    countOf n' (l.filter fun i => ! (i.product.name == n)) = countOf n' l := by
  induction l with
  | nil => rfl
  | cons i t ih =>
      by_cases h : i.product.name = n
      · have hb : (n == n') = false := by
          simp
          exact fun hc => hne hc.symm
        simp [List.filter_cons, h, countOf, hb, ih]
      · simp [List.filter_cons, h, countOf, ih]

theorem countOf_eq_of_find? (n : String) (l : List InventoryItem)
    (hnd : (l.map fun i => i.product.name).Nodup) (it : InventoryItem)
    (h : l.find? (fun i => i.product.name == n) = some it) : countOf n l = it.items := by
  induction l with
  | nil => simp at h
  | cons i t ih =>
      rw [List.map_cons, List.nodup_cons] at hnd
      by_cases hb : i.product.name = n
      · rw [List.find?_cons_of_pos _ (by simp [hb])] at h
        have hit : it = i := by injection h with h'; exact h'.symm
        have hz : countOf n t = 0 := by
          apply countOf_eq_zero
          intro j hj hjn
          have hmem : i.product.name ∈ List.map (fun i => i.product.name) t := by
            rw [hb, ← hjn]
            exact List.mem_map_of_mem _ hj
          exact hnd.1 hmem
        simp [countOf, hb, hz, hit]
      · rw [List.find?_cons_of_neg _ (by simp [hb])] at h
        simp [countOf, hb, ih hnd.2 h]

theorem find?_of_hasStock (m : VendingMachineContext) (p : Product)
    (h : hasStockOf m p = true) :
    ∃ it, m.inventory.items.find? (fun i => i.product.name == p.name) = some it := by
  have hs : (m.inventory.items.find? (fun i => i.product.name == p.name)).isSome = true := by
    rw [List.find?_isSome]
    obtain ⟨i, hi, hname, _⟩ := (hasStockOf_iff m p).1 h
    exact ⟨i, hi, by simp [hname]⟩
  exact Option.isSome_iff_exists.mp hs

theorem found_pos_of_hasStock (m : VendingMachineContext) (p : Product) (it : InventoryItem)
    (hnd : NodupNames m.inventory) (h : hasStockOf m p = true)
    (hf : m.inventory.items.find? (fun i => i.product.name == p.name) = some it) :
    0 < it.items := by
  obtain ⟨x, hx, hxname, hxpos⟩ := (hasStockOf_iff m p).1 h
  have hit : it ∈ m.inventory.items := List.mem_of_find?_eq_some hf
  have hitname : it.product.name = p.name := by simpa using List.find?_some hf
  have hxit : x = it := List.inj_on_of_nodup_map hnd hx hit (by rw [hxname, hitname])
  exact hxit ▸ hxpos

/-! ### Characterizations of `dispenseProduct` -/

theorem dispenseProduct_insufficient (m : VendingMachineContext) (p : Product)
    (h : m.credit < p.value) :
    dispenseProduct m p = (m, some .insufficientCredit) := by
  unfold dispenseProduct
  rw [if_pos (show p.value > m.credit from h)]

theorem dispenseProduct_noStock (m : VendingMachineContext) (p : Product)
    (hcr : p.value ≤ m.credit) (h : hasStockOf m p = false) :
    dispenseProduct m p = (m, some .outOfStock) := by
  unfold dispenseProduct
  rw [if_neg (by omega : ¬ p.value > m.credit), if_pos (by simp [h])]

theorem dispenseProduct_success (m : VendingMachineContext) (p : Product)
    (hcr : p.value ≤ m.credit) (hst : hasStockOf m p = true) :
    ∃ it, m.inventory.items.find? (fun i => i.product.name == p.name) = some it ∧
      dispenseProduct m p =
        ({ state := m.state, credit := 0,
           inventory := ⟨(m.inventory.items.filter fun i => ! (i.product.name == p.name)) ++
             [{ product := p, items := it.items - 1 }]⟩,
           trace := m.trace }, none) := by
  obtain ⟨it, hf⟩ := find?_of_hasStock m p hst
  refine ⟨it, hf, ?_⟩
  unfold dispenseProduct
  rw [if_neg (by omega : ¬ p.value > m.credit), if_neg (by simp [hst]), hf]
  rfl

theorem dispenseProduct_fail_eq (m : VendingMachineContext) (p : Product)
    (m' : VendingMachineContext) (e : VMError)
    (h : dispenseProduct m p = (m', some e)) : m' = m := by
  by_cases h1 : p.value > m.credit
  · rw [dispenseProduct_insufficient m p h1] at h
    exact (congrArg Prod.fst h).symm
  · by_cases h2 : hasStockOf m p = true
    · obtain ⟨it, _, heq⟩ := dispenseProduct_success m p (by omega) h2
      rw [heq] at h
      exact absurd (congrArg Prod.snd h) (by simp)
    · rw [dispenseProduct_noStock m p (by omega) (by simpa using h2)] at h
      exact (congrArg Prod.fst h).symm

theorem dispenseProduct_ok_credit (m : VendingMachineContext) (p : Product)
    (m' : VendingMachineContext) (h : dispenseProduct m p = (m', none)) :
    m'.credit = 0 := by
  by_cases h1 : p.value > m.credit
  · rw [dispenseProduct_insufficient m p h1] at h
    exact absurd (congrArg Prod.snd h) (by simp)
  · by_cases h2 : hasStockOf m p = true
    · obtain ⟨it, _, heq⟩ := dispenseProduct_success m p (by omega) h2
      rw [heq] at h
      have hfst := congrArg Prod.fst h
      simp only [Prod.fst] at hfst
      rw [← hfst]
    · rw [dispenseProduct_noStock m p (by omega) (by simpa using h2)] at h
      exact absurd (congrArg Prod.snd h) (by simp)

/-! ### Shape lemmas for `insertCoin` and `selectProduct` -/

theorem insertCoin_inventory (m : VendingMachineContext) (c : Coin) :
    (insertCoin m c).1.inventory = m.inventory := by
  cases hst : m.state <;> simp [insertCoin, hst, addCredit, transitionTo]

theorem insertCoin_fail (m : VendingMachineContext) (c : Coin) (e : VMError)
    (h : (insertCoin m c).2 = some e) : insertCoin m c = (m, some .machineOutOfStock) := by
  cases hst : m.state <;> simp [insertCoin, hst] at h ⊢

theorem selectProduct_fail (m : VendingMachineContext) (p : Product) (e : VMError)
    (h : (selectProduct m p).2 = some e) : selectProduct m p = (m, some e) := by
  cases hst : m.state
  · simp [selectProduct, hst] at h ⊢
    exact h
  · rcases hd : dispenseProduct m p with ⟨md, e'⟩
    cases e' with
    | none =>
        simp [selectProduct, hst, hd] at h
        by_cases ho : isOutOfStock md = true <;> simp [ho] at h
    | some e'' =>
        have hmd : md = m := dispenseProduct_fail_eq m p md e'' hd
        simp [selectProduct, hst, hd, hmd] at h ⊢
        exact h
  · simp [selectProduct, hst] at h ⊢
    exact h

theorem selectProduct_ok (m : VendingMachineContext) (p : Product)
    (h : (selectProduct m p).2 = none) :
    m.state = .TransactionStarted ∧
    ∃ md, dispenseProduct m p = (md, none)
      ∧ (selectProduct m p).1.inventory = md.inventory
      ∧ (selectProduct m p).1.credit = md.credit
      ∧ ((selectProduct m p).1.state = .OutOfStock ↔ isOutOfStock md = true)
      ∧ ((selectProduct m p).1.state = .OutOfStock ∨
         (selectProduct m p).1.state = .InitialReadyState) := by
  cases hst : m.state
  · simp [selectProduct, hst] at h
  · refine ⟨rfl, ?_⟩
    rcases hd : dispenseProduct m p with ⟨md, e'⟩
    cases e' with
    | none =>
        refine ⟨md, rfl, ?_⟩
        by_cases ho : isOutOfStock md = true
        · simp [selectProduct, hst, hd, ho, transitionTo]
        · simp [selectProduct, hst, hd, ho, transitionTo]
    | some e'' => simp [selectProduct, hst, hd] at h
  · simp [selectProduct, hst] at h

theorem dispense_ok_inventory (m : VendingMachineContext) (p : Product)
    (m' : VendingMachineContext) (hg : GoodInv m.inventory)
    (h : dispenseProduct m p = (m', none)) :
    GoodInv m'.inventory ∧ m'.credit = 0
    ∧ countOf p.name m'.inventory.items = countOf p.name m.inventory.items - 1
    ∧ (∀ n, n ≠ p.name → countOf n m'.inventory.items = countOf n m.inventory.items)
    ∧ 0 < countOf p.name m.inventory.items := by
  by_cases h1 : p.value > m.credit
  · rw [dispenseProduct_insufficient m p h1] at h
    exact absurd (congrArg Prod.snd h) (by simp)
  by_cases h2 : hasStockOf m p = true
  case neg =>
    rw [dispenseProduct_noStock m p (by omega) (by simpa using h2)] at h
    exact absurd (congrArg Prod.snd h) (by simp)
  obtain ⟨it, hf, heq⟩ := dispenseProduct_success m p (by omega) h2
  rw [heq] at h
  have hfst := congrArg Prod.fst h
  simp only [Prod.fst] at hfst
  have hpos : 0 < it.items := found_pos_of_hasStock m p it hg.2 h2 hf
  have hcount : countOf p.name m.inventory.items = it.items :=
    countOf_eq_of_find? p.name m.inventory.items hg.2 it hf
  subst hfst
  refine ⟨⟨?_, ?_⟩, rfl, ?_, ?_, ?_⟩
  · intro i hi
    rcases List.mem_append.mp hi with hi | hi
    · exact hg.1 i (List.mem_of_mem_filter hi)
    · rcases List.mem_singleton.mp hi with rfl
      simp
      omega
  · show List.Nodup _
    rw [List.map_append, List.nodup_append]
    refine ⟨?_, by simp, ?_⟩
    · exact ((List.filter_sublist m.inventory.items).map _).nodup hg.2
    · intro x hx hxs
      simp only [List.map_cons, List.map_nil, List.mem_singleton] at hxs
      subst hxs
      rcases List.mem_map.mp hx with ⟨i, hi, hix⟩
      have hne : i.product.name ≠ p.name := by
        simpa using List.of_mem_filter hi
      exact hne hix
  · rw [countOf_append, countOf_filter_self, hcount]
    simp [countOf]
  · intro n hn
    rw [countOf_append, countOf_filter_other p.name n hn]
    simp [countOf, Ne.symm hn]
  · omega

theorem step_goodInv (m : VendingMachineContext) (op : Op)
    (hg : GoodInv m.inventory) : GoodInv (step m op).inventory := by
  cases op with
  | insert c => rw [step, insertCoin_inventory]; exact hg
  | select p =>
      rw [step]
      cases hsel : (selectProduct m p).2 with
      | some e => rw [selectProduct_fail m p e hsel]; exact hg
      | none =>
          obtain ⟨_, md, hd, hinv, _⟩ := selectProduct_ok m p hsel
          rw [hinv]
          exact (dispense_ok_inventory m p md hg hd).1

theorem run_goodInv (ops : List Op) (m : VendingMachineContext)
    (hg : GoodInv m.inventory) : GoodInv (run m ops).inventory := by
  induction ops generalizing m with
  | nil => exact hg
  | cons op t ih => exact ih (step m op) (step_goodInv m op hg)

theorem initial_goodInv : GoodInv initialContext.inventory := by
  constructor
  · intro i hi
    simp [initialContext, transitionTo, INITIAL_INVENTORY, SODA, NUTS] at hi
    rcases hi with rfl | rfl <;> simp
  · show List.Nodup _
    simp [initialContext, transitionTo, INITIAL_INVENTORY, SODA, NUTS]

/-! ### Credit lemmas -/

theorem insertCoin_credit (m : VendingMachineContext) (c : Coin) :
    (insertCoin m c).1.credit = m.credit + c.value ∨
    (insertCoin m c = (m, some .machineOutOfStock) ∧ m.state = .OutOfStock) := by
  cases hst : m.state
  · left; simp [insertCoin, hst, addCredit, transitionTo]
  · left; simp [insertCoin, hst, addCredit]
  · right; exact ⟨by simp [insertCoin, hst], rfl⟩

theorem selectProduct_ok_credit (m : VendingMachineContext) (p : Product)
    (h : (selectProduct m p).2 = none) : (selectProduct m p).1.credit = 0 := by
  obtain ⟨_, md, hd, _, hcr, _⟩ := selectProduct_ok m p h
  rw [hcr]
  exact dispenseProduct_ok_credit m p md hd

theorem step_creditInv (m : VendingMachineContext) (op : Op)
    (hop : Op.coinPos op) (hc : CreditStateInv m) : CreditStateInv (step m op) := by
  cases op with
  | insert c =>
      have hv : 0 < c.value := hop
      cases hst : m.state
      · have hne : m.state ≠ StateName.TransactionStarted := by rw [hst]; simp
        have hz : m.credit = 0 := by
          have h2 : ¬ 0 < m.credit := fun hlt => hne (hc.2.mp hlt)
          have h1 := hc.1
          omega
        simp [CreditStateInv, step, insertCoin, hst, addCredit, transitionTo]
        omega
      · have hpos : 0 < m.credit := hc.2.mpr hst
        simp [CreditStateInv, step, insertCoin, hst, addCredit]
        omega
      · have h2 : ¬ 0 < m.credit := by
          have := hc.2
          rw [hst] at this
          simpa using this
        have h1 := hc.1
        simp [CreditStateInv, step, insertCoin, hst]
        omega
  | select p =>
      cases hsel : (selectProduct m p).2 with
      | some e =>
          have hfst : (selectProduct m p).1 = m := by rw [selectProduct_fail m p e hsel]
          simpa [CreditStateInv, step, hfst] using hc
      | none =>
          obtain ⟨hts, md, hd, hinv, hcr, hiff, hor⟩ := selectProduct_ok m p hsel
          have hz : (selectProduct m p).1.credit = 0 := selectProduct_ok_credit m p hsel
          have hstate : (selectProduct m p).1.state ≠ .TransactionStarted := by
            rcases hor with h' | h' <;> rw [h'] <;> simp
          refine ⟨?_, ?_⟩
          · show 0 ≤ (selectProduct m p).1.credit
            rw [hz]
          · show 0 < (selectProduct m p).1.credit ↔
              (selectProduct m p).1.state = .TransactionStarted
            rw [hz]
            simp [hstate]

theorem run_creditInv (ops : List Op) (m : VendingMachineContext)
    (hpos : PosCoins ops) (hc : CreditStateInv m) : CreditStateInv (run m ops) := by
  induction ops generalizing m with
  | nil => exact hc
  | cons op t ih =>
      exact ih (step m op) (fun x hx => hpos x (List.mem_cons_of_mem _ hx))
        (step_creditInv m op (hpos op (List.mem_cons_self _ _)) hc)

theorem initial_creditInv : CreditStateInv initialContext := by
  simp [CreditStateInv, initialContext, transitionTo]

/-! ### The running coin-sum bound -/

theorem runSum_fst (ops : List Op) (m : VendingMachineContext) (s : Int) :
    (runSum m s ops).1 = run m ops := by
  induction ops generalizing m s with
  | nil => rfl
  | cons op t ih => cases op <;> simp [runSum, run, step, ih]

theorem runSum_bound (ops : List Op) : ∀ (m : VendingMachineContext) (s : Int),
    PosCoins ops → 0 ≤ m.credit → m.credit ≤ s →
    0 ≤ (runSum m s ops).1.credit ∧ (runSum m s ops).1.credit ≤ (runSum m s ops).2 := by
  induction ops with
  | nil => exact fun m s _ h0 hs => ⟨h0, hs⟩
  | cons op t ih =>
      intro m s hpos h0 hs
      have hpt : PosCoins t := fun x hx => hpos x (List.mem_cons_of_mem _ hx)
      cases op with
      | insert c =>
          have hv : 0 < c.value := hpos _ (List.mem_cons_self _ _)
          simp only [runSum]
          rcases insertCoin_credit m c with hcr | ⟨heq, _⟩
          · exact ih _ _ hpt (by rw [hcr]; omega) (by rw [hcr]; omega)
          · have hfst : (insertCoin m c).1 = m := by rw [heq]
            rw [hfst]
            exact ih m (s + c.value) hpt h0 (by omega)
      | select p =>
          cases hsel : (selectProduct m p).2 with
          | none =>
              have hz := selectProduct_ok_credit m p hsel
              simp only [runSum]
              rw [if_pos hsel]
              exact ih _ 0 hpt (by rw [hz]) (by rw [hz])
          | some e =>
              have hfst : (selectProduct m p).1 = m := by rw [selectProduct_fail m p e hsel]
              simp only [runSum]
              rw [if_neg (by simp [hsel]), hfst]
              exact ih m s hpt h0 hs

/-! ### The claims -/

/-- C1: `dispenseProduct(p)` fails with `InsufficientCreditError` iff
credit < p.value; otherwise fails with `OutOfStockError` iff `hasStockOf(p)`
is false; otherwise it succeeds, decrementing p's inventory count by exactly
1 and resetting credit to 0 (so exact credit succeeds and overpayment is
discarded by the reset). -/
theorem claim1_dispense_spec (m : VendingMachineContext) (p : Product)
    (hnd : NodupNames m.inventory) :
    ((dispenseProduct m p).2 = some VMError.insufficientCredit ↔ m.credit < p.value)
    ∧ (p.value ≤ m.credit →
        ((dispenseProduct m p).2 = some VMError.outOfStock ↔ hasStockOf m p = false))
    ∧ (p.value ≤ m.credit → hasStockOf m p = true →
        (dispenseProduct m p).2 = none
        ∧ (dispenseProduct m p).1.credit = 0
        ∧ countOf p.name (dispenseProduct m p).1.inventory.items
            = countOf p.name m.inventory.items - 1) := by
  refine ⟨?_, ?_, ?_⟩
  · constructor
    · intro h
      by_contra hcr
      push_neg at hcr
      by_cases hst : hasStockOf m p = true
      · obtain ⟨it, hf, heq⟩ := dispenseProduct_success m p hcr hst
        rw [heq] at h
        simp at h
      · rw [dispenseProduct_noStock m p hcr (by simpa using hst)] at h
        simp at h
    · intro h
      rw [dispenseProduct_insufficient m p h]
  · intro hcr
    constructor
    · intro h
      by_contra hstk
      have hst : hasStockOf m p = true := by simpa using hstk
      obtain ⟨it, hf, heq⟩ := dispenseProduct_success m p hcr hst
      rw [heq] at h
      simp at h
    · intro h
      rw [dispenseProduct_noStock m p hcr h]
  · intro hcr hst
    obtain ⟨it, hf, heq⟩ := dispenseProduct_success m p hcr hst
    have hcount : countOf p.name m.inventory.items = it.items :=
      countOf_eq_of_find? p.name m.inventory.items hnd it hf
    rw [heq]
    refine ⟨rfl, rfl, ?_⟩
    show countOf p.name
      ((m.inventory.items.filter fun i => ! (i.product.name == p.name)) ++
        [{ product := p, items := it.items - 1 }]) = _
    rw [countOf_append, countOf_filter_self, hcount]
    simp [countOf]

/-- C1 witness: with credit exactly 15 and `SODA` priced 15 and in stock,
dispensing succeeds, resets credit and decrements the Soda count by 1. -/
theorem claim1_witness :
    (dispenseProduct creditedContext SODA).2 = none
    ∧ (dispenseProduct creditedContext SODA).1.credit = 0
    ∧ countOf SODA.name (dispenseProduct creditedContext SODA).1.inventory.items
        = countOf SODA.name creditedContext.inventory.items - 1 :=
  (claim1_dispense_spec creditedContext SODA (by decide)).2.2 (by decide) (by decide)

/-- C2: a successful `selectProduct` from `TransactionStarted` transitions
to `OutOfStock` exactly when, after the dispense, every inventory entry has
count 0 (machine-wide), and otherwise to `InitialReadyState`. -/
theorem claim2_select_transition (m : VendingMachineContext) (p : Product)
    (_hst : m.state = .TransactionStarted) (hg : GoodInv m.inventory)
    (h : (selectProduct m p).2 = none) :
    ((selectProduct m p).1.state = .OutOfStock ∨
     (selectProduct m p).1.state = .InitialReadyState)
    ∧ ((selectProduct m p).1.state = .OutOfStock ↔
        ∀ i ∈ (selectProduct m p).1.inventory.items, i.items = 0) := by
  obtain ⟨_, md, hd, hinv, hcr, hiff, hor⟩ := selectProduct_ok m p h
  refine ⟨hor, ?_⟩
  rw [hiff, hinv]
  have hgood : GoodInv md.inventory := (dispense_ok_inventory m p md hg hd).1
  rw [isOutOfStock_iff]
  constructor
  · intro hall i hi
    have h1 := hgood.1 i hi
    have h2 := hall i hi
    omega
  · intro hall i hi
    have := hall i hi
    omega

/-- C2 witness: selecting `SODA` with exact credit from the seeded
inventory leaves Soda in stock, so the machine returns to
`InitialReadyState`, and the out-of-stock test agrees with all-counts-zero. -/
theorem claim2_witness :
    ((selectProduct creditedContext SODA).1.state = .OutOfStock ∨
     (selectProduct creditedContext SODA).1.state = .InitialReadyState)
    ∧ ((selectProduct creditedContext SODA).1.state = .OutOfStock ↔
        ∀ i ∈ (selectProduct creditedContext SODA).1.inventory.items, i.items = 0) :=
  claim2_select_transition creditedContext SODA rfl (by decide) (by decide)

/-- C3: whenever `insertCoin` or `selectProduct` fails with one of the four
errors, the error reaches the caller unchanged and the whole context
(state variant, credit, every inventory count, even the transition trace)
is exactly as before the call; in particular an error raised inside
`dispenseProduct` propagates unchanged through `selectProduct`. -/
theorem claim3_error_no_mutation (m : VendingMachineContext) (c : Coin) (p : Product)
    (e : VMError)
    (_he : e = .noCredit ∨ e = .insufficientCredit ∨ e = .outOfStock ∨
          e = .machineOutOfStock) :
    ((insertCoin m c).2 = some e → (insertCoin m c).1 = m)
    ∧ ((selectProduct m p).2 = some e → (selectProduct m p).1 = m)
    ∧ (m.state = .TransactionStarted → (dispenseProduct m p).2 = some e →
        selectProduct m p = (m, some e)) := by
  refine ⟨?_, ?_, ?_⟩
  · intro h
    rw [insertCoin_fail m c e h]
  · intro h
    rw [selectProduct_fail m p e h]
  · intro hst h
    rcases hd : dispenseProduct m p with ⟨md, e'⟩
    rw [hd] at h
    simp at h
    subst h
    have hmd : md = m := dispenseProduct_fail_eq m p md e hd
    simp [selectProduct, hst, hd, hmd]

/-- C3 witness: in the exhausted-stock context both operations fail with
`MachineOutOfStockError` and leave the context untouched. -/
theorem claim3_witness :
    (insertCoin stockOutContext NICKEL).1 = stockOutContext
    ∧ (selectProduct stockOutContext SODA).1 = stockOutContext :=
  ⟨(claim3_error_no_mutation stockOutContext NICKEL SODA .machineOutOfStock
      (by simp)).1 (by decide),
   (claim3_error_no_mutation stockOutContext NICKEL SODA .machineOutOfStock
      (by simp)).2.1 (by decide)⟩

/-- C4: `OutOfStock` is absorbing — every `insertCoin` and `selectProduct`
fails with `MachineOutOfStockError` returning the context unchanged, and
any further call sequence leaves the context exactly as it is. -/
theorem claim4_outOfStock_absorbing (m : VendingMachineContext)
    (h : m.state = .OutOfStock) :
    (∀ c, insertCoin m c = (m, some VMError.machineOutOfStock))
    ∧ (∀ p, selectProduct m p = (m, some VMError.machineOutOfStock))
    ∧ (∀ ops, run m ops = m) := by
  have hi : ∀ c, insertCoin m c = (m, some VMError.machineOutOfStock) := fun c => by
    simp [insertCoin, h]
  have hs : ∀ p, selectProduct m p = (m, some VMError.machineOutOfStock) := fun p => by
    simp [selectProduct, h]
  refine ⟨hi, hs, ?_⟩
  intro ops
  induction ops with
  | nil => rfl
  | cons op t ih =>
      have hstep : step m op = m := by
        cases op with
        | insert c => rw [step, hi c]
        | select p => rw [step, hs p]
      rw [run, hstep]
      exact ih

/-- C4 witness: the exhausted-stock context rejects a coin and is untouched
by a two-call sequence. -/
theorem claim4_witness :
    insertCoin stockOutContext NICKEL = (stockOutContext, some VMError.machineOutOfStock)
    ∧ run stockOutContext [Op.insert DIME, Op.select SODA] = stockOutContext :=
  ⟨(claim4_outOfStock_absorbing stockOutContext rfl).1 NICKEL,
   (claim4_outOfStock_absorbing stockOutContext rfl).2.2 [Op.insert DIME, Op.select SODA]⟩

/-- C5: in `InitialReadyState`, `insertCoin(c)` succeeds, adds exactly
`c.value` to the credit, leaves the inventory alone and transitions to
`TransactionStarted`; `selectProduct` fails with `NoCreditError` leaving
the context unchanged, whatever the product. -/
theorem claim5_initialReady (m : VendingMachineContext) (c : Coin) (p : Product)
    (h : m.state = .InitialReadyState) :
    (insertCoin m c).2 = none
    ∧ (insertCoin m c).1.credit = m.credit + c.value
    ∧ (insertCoin m c).1.state = .TransactionStarted
    ∧ (insertCoin m c).1.inventory = m.inventory
    ∧ selectProduct m p = (m, some VMError.noCredit) := by
  refine ⟨?_, ?_, ?_, ?_, ?_⟩ <;>
    simp [insertCoin, selectProduct, h, addCredit, transitionTo]

/-- C5 witness: the freshly constructed machine accepts a dime and refuses
to select before any coin. -/
theorem claim5_witness :
    (insertCoin initialContext DIME).2 = none
    ∧ (insertCoin initialContext DIME).1.credit = initialContext.credit + DIME.value
    ∧ (insertCoin initialContext DIME).1.state = .TransactionStarted
    ∧ (insertCoin initialContext DIME).1.inventory = initialContext.inventory
    ∧ selectProduct initialContext NUTS = (initialContext, some VMError.noCredit) :=
  claim5_initialReady initialContext DIME NUTS rfl

/-- C6: along every run from the fresh machine in which all inserted coins
have positive value, the credit stays non-negative and never exceeds the
sum of the values of the coins inserted since the last successful dispense
(the second component of `runSum`, which resets exactly when a dispense
succeeds; no other reset is reachable from outside). -/
theorem claim6_credit_bound (ops : List Op) (h : PosCoins ops) :
    0 ≤ (run initialContext ops).credit
    ∧ (run initialContext ops).credit ≤ (runSum initialContext 0 ops).2 := by
  have hb := runSum_bound ops initialContext 0 h (by simp [initialContext, transitionTo])
    (by simp [initialContext, transitionTo])
  rwa [runSum_fst] at hb

/-- C6 witness: a dime then a failed selection keep 0 ≤ credit ≤ 10. -/
theorem claim6_witness :
    PosCoins [Op.insert DIME, Op.select SODA]
    ∧ (0 ≤ (run initialContext [Op.insert DIME, Op.select SODA]).credit
       ∧ (run initialContext [Op.insert DIME, Op.select SODA]).credit
           ≤ (runSum initialContext 0 [Op.insert DIME, Op.select SODA]).2) :=
  ⟨by decide, claim6_credit_bound [Op.insert DIME, Op.select SODA] (by decide)⟩

/-- C7: in every reachable context, every inventory count is ≥ 0; inserting
a coin never changes the inventory, a failed selection never changes the
inventory, and a successful selection decrements the selected product's
count by exactly 1, changes no other count, and requires the pre-dispense
count to be positive. -/
theorem claim7_inventory_law (ops : List Op) (p : Product) (c : Coin) :
    (∀ i ∈ (run initialContext ops).inventory.items, 0 ≤ i.items)
    ∧ (insertCoin (run initialContext ops) c).1.inventory
        = (run initialContext ops).inventory
    ∧ (∀ e, (selectProduct (run initialContext ops) p).2 = some e →
        (selectProduct (run initialContext ops) p).1.inventory
          = (run initialContext ops).inventory)
    ∧ ((selectProduct (run initialContext ops) p).2 = none →
        countOf p.name (selectProduct (run initialContext ops) p).1.inventory.items
          = countOf p.name (run initialContext ops).inventory.items - 1
        ∧ (∀ n, n ≠ p.name →
            countOf n (selectProduct (run initialContext ops) p).1.inventory.items
              = countOf n (run initialContext ops).inventory.items)
        ∧ 0 < countOf p.name (run initialContext ops).inventory.items) := by
  have hg : GoodInv (run initialContext ops).inventory :=
    run_goodInv ops initialContext initial_goodInv
  refine ⟨hg.1, insertCoin_inventory _ c, ?_, ?_⟩
  · intro e h
    rw [selectProduct_fail _ p e h]
  · intro h
    obtain ⟨_, md, hd, hinv, _, _, _⟩ := selectProduct_ok _ p h
    obtain ⟨_, _, hcnt, hoth, hpos⟩ := dispense_ok_inventory _ p md hg hd
    rw [hinv]
    exact ⟨hcnt, hoth, hpos⟩

/-- C7 witness: after a dime and a nickel, selecting Soda succeeds and its
pre-dispense count is positive. -/
theorem claim7_witness :
    0 < countOf SODA.name
        (run initialContext [Op.insert DIME, Op.insert NICKEL]).inventory.items :=
  ((claim7_inventory_law [Op.insert DIME, Op.insert NICKEL] SODA NICKEL).2.2.2
    (by decide)).2.2

/-- C8: `hasStockOf(p)` is true iff an inventory entry with p's name has
positive count, and (for inventories with non-negative counts, as the data
model requires) `isOutOfStock()` is true iff every entry's count is 0; both
are pure functions of the context, so repeated calls agree. -/
theorem claim8_stock_observers (m : VendingMachineContext) (p : Product)
    (h : ∀ i ∈ m.inventory.items, 0 ≤ i.items) :
    (hasStockOf m p = true ↔
      ∃ i ∈ m.inventory.items, i.product.name = p.name ∧ 0 < i.items)
    ∧ (isOutOfStock m = true ↔ ∀ i ∈ m.inventory.items, i.items = 0) := by
  refine ⟨hasStockOf_iff m p, ?_⟩
  rw [isOutOfStock_iff]
  constructor
  · intro hall i hi
    have h1 := h i hi
    have h2 := hall i hi
    omega
  · intro hall i hi
    have := hall i hi
    omega

/-- C8 witness: on the fresh machine, Soda is in stock and the machine is
not out of stock. -/
theorem claim8_witness :
    (hasStockOf initialContext SODA = true ↔
      ∃ i ∈ initialContext.inventory.items, i.product.name = SODA.name ∧ 0 < i.items)
    ∧ (isOutOfStock initialContext = true ↔
        ∀ i ∈ initialContext.inventory.items, i.items = 0) :=
  claim8_stock_observers initialContext SODA (by decide)

/-- C9 counterexample: the event `transitionTo` emits for the transition
from the initial `InitialReadyState` to `TransactionStarted` is the single
line `Context: Transition to TransactionStarted.`, and the prior state's
name does not occur in it — the event does NOT name both states. -/
theorem claim9_counterexample :
    initialContext.state = StateName.InitialReadyState
    ∧ (transitionTo initialContext .TransactionStarted).trace
        = initialContext.trace ++ ["Context: Transition to TransactionStarted."]
    ∧ eventNames "Context: Transition to TransactionStarted."
        StateName.InitialReadyState = false :=
  ⟨rfl, rfl, by decide⟩

/-- C9 (amended): `transitionTo(newState)` replaces the active state
reference, touches neither credit nor inventory, and emits exactly one
transition event, which names the NEW state only (the prior state is not
part of the event). -/
theorem claim9_transition_event (m : VendingMachineContext) (s : StateName) :
    (transitionTo m s).state = s
    ∧ (transitionTo m s).credit = m.credit
    ∧ (transitionTo m s).inventory = m.inventory
    ∧ (transitionTo m s).trace = m.trace ++ [transitionEvent s]
    ∧ eventNames (transitionEvent s) s = true := by
  refine ⟨rfl, rfl, rfl, rfl, ?_⟩
  cases s <;> decide

/-- C10: in every context reachable with positive-valued coins, the credit
is positive exactly in `TransactionStarted`; equivalently it is 0 whenever
the state is `InitialReadyState` or `OutOfStock` (so the code's state-based
`NoCreditError` test coincides with the spec's credit-based one). -/
theorem claim10_credit_state_law (ops : List Op) (h : PosCoins ops) :
    (0 < (run initialContext ops).credit ↔
      (run initialContext ops).state = .TransactionStarted)
    ∧ ((run initialContext ops).state = .InitialReadyState ∨
       (run initialContext ops).state = .OutOfStock →
       (run initialContext ops).credit = 0) := by
  have hc := run_creditInv ops initialContext h initial_creditInv
  refine ⟨hc.2, ?_⟩
  intro hor
  have hne : (run initialContext ops).state ≠ .TransactionStarted := by
    rcases hor with h' | h' <;> rw [h'] <;> simp
  have h2 : ¬ 0 < (run initialContext ops).credit := fun hlt => hne (hc.2.mp hlt)
  have h1 := hc.1
  omega

/-- C10 witness: after one nickel the machine is in `TransactionStarted`
with positive credit. -/
theorem claim10_witness :
    0 < (run initialContext [Op.insert NICKEL]).credit ↔
      (run initialContext [Op.insert NICKEL]).state = .TransactionStarted :=
  (claim10_credit_state_law [Op.insert NICKEL] (by decide)).1

end VendingMachine
